import Mathlib

/-!
Verification development for the proton GidToLidChangeHandler
(src/searchcore/src/vespa/searchcore/proton/reference/gid_to_lid_change_handler.cpp).

The handler reconciles out-of-order put/remove completion notifications,
keyed by a global document id (GID), and fans notifications out to a
registry of listeners.  The C++ class is embedded shallowly: the pending
remove table becomes an association list, the listener registry a list,
and each fallible member function (one containing assert statements)
returns an Option, with none standing for a fatal assertion failure.
-/

/-- Serial numbers are opaque, totally ordered integers assigned by the
upstream write-ahead log; the handler only stores and compares them. -/
abbrev SerialNum := Nat

/-- Global document ids are opaque, equality-comparable keys; the handler
never interprets them, so they are modelled as naturals. -/
abbrev GlobalId := Nat

/-- Modelled from the spec: the struct PendingRemoveEntry is declared in
gid_to_lid_change_handler.h, which is not part of the provided sources.
Per the spec's data model, an entry carries the serial number of the most
recently registered outstanding remove, the serial number of the most
recent observed put (initialized to a value lower than any valid serial
number, modelled as none), and the exact count of outstanding removes
(created with refCount = 1). -/
structure PendingRemoveEntry where
  removeSerialNum : SerialNum
  putSerialNum : Option SerialNum
  refCount : Nat
deriving DecidableEq, Repr

/-- A listener handle: the token distinguishes distinct handles carrying
the same identity; the handler identifies listeners by
(document-type name, listener name). -/
structure Listener where
  token : Nat
  docTypeName : String
  name : String
deriving DecidableEq, Repr

/-- Events a listener can receive from the handler. -/
inductive Event where
  | putDone (gid : GlobalId) (lid : Nat)
  | removed (gid : GlobalId)
  | registered
deriving DecidableEq, Repr

/-- A notification delivered to one concrete listener. -/
abbrev Notification := Listener × Event

/-- State of the handler: listener registry, closed flag and the pending
remove table (an association list keyed by GID, unique keys maintained by
the operations). -/
structure GidToLidChangeHandler where
  listeners : List Listener
  closed : Bool
  pendingRemove : List (GlobalId × PendingRemoveEntry)
deriving DecidableEq, Repr

/-- A freshly constructed handler: open, no listeners, no pending entries. -/
def initialHandler : GidToLidChangeHandler :=
  { listeners := [], closed := false, pendingRemove := [] }

/-- Lookup in the pending remove table (hash-map find). -/
def pendingLookup (m : List (GlobalId × PendingRemoveEntry)) (g : GlobalId) :
    Option PendingRemoveEntry :=
  match m with
  | [] => none
  | (k, e) :: rest => if k = g then some e else pendingLookup rest g

/-- Replace the entry stored under key g (hash-map update through the
iterator returned by find). -/
def pendingUpdate (m : List (GlobalId × PendingRemoveEntry)) (g : GlobalId)
    (e : PendingRemoveEntry) : List (GlobalId × PendingRemoveEntry) :=
  match m with
  | [] => []
  | (k, e') :: rest =>
    if k = g then (k, e) :: pendingUpdate rest g e
    else (k, e') :: pendingUpdate rest g e

/-- Erase the entry stored under key g (hash-map erase). -/
def pendingErase (m : List (GlobalId × PendingRemoveEntry)) (g : GlobalId) :
    List (GlobalId × PendingRemoveEntry) :=
  match m with
  | [] => []
  | (k, e') :: rest =>
    if k = g then pendingErase rest g
    else (k, e') :: pendingErase rest g

/-- Modelled from the spec: comparison of the possibly-unset putSerialNum
against a serial number; the unset value is lower than any valid serial. -/
def serialLt (p : Option SerialNum) (s : SerialNum) : Bool :=
  match p with
  | none => true
  | some p' => p' < s

/-- Modelled from the spec: whether the recorded putSerialNum is strictly
greater than the recorded removeSerialNum (the unset put value is lower
than everything, so it is never greater). -/
def serialGtRemove (p : Option SerialNum) (r : SerialNum) : Bool :=
  match p with
  | none => false
  | some p' => r < p'

/-- Fan out of a put notification to every listener
(GidToLidChangeHandler::notifyPutDone(gid, lid), the loop over _listeners). -/
def putDoneFanout (ls : List Listener) (gid : GlobalId) (lid : Nat) :
    List Notification :=
  ls.map (fun l => (l, Event.putDone gid lid))

/-- Fan out of a remove notification to every listener
(GidToLidChangeHandler::notifyRemove(gid), the loop over _listeners). -/
def removeFanout (ls : List Listener) (gid : GlobalId) : List Notification :=
  ls.map (fun l => (l, Event.removed gid))

/-- GidToLidChangeHandler::notifyPutDone(gid, lid, serialNum).  Returns the
new handler state and the notifications delivered; none is a fatal assert. -/
def notifyPutDoneSerial (h : GidToLidChangeHandler) (gid : GlobalId)
    (lid : Nat) (serial : SerialNum) :
    Option (GidToLidChangeHandler × List Notification) :=
  match pendingLookup h.pendingRemove gid with
  | some entry =>
    if entry.removeSerialNum = serial then
      none
    else if serial < entry.removeSerialNum then
      some (h, [])
    else if serialLt entry.putSerialNum serial then
      let m := pendingUpdate h.pendingRemove gid { entry with putSerialNum := some serial }
      some ({ h with pendingRemove := m }, putDoneFanout h.listeners gid lid)
    else
      none
  | none => some (h, putDoneFanout h.listeners gid lid)

/-- GidToLidChangeHandler::notifyRemove(gid, serialNum). -/
def notifyRemoveSerial (h : GidToLidChangeHandler) (gid : GlobalId)
    (serial : SerialNum) :
    Option (GidToLidChangeHandler × List Notification) :=
  match pendingLookup h.pendingRemove gid with
  | none =>
    let m := (gid, (⟨serial, none, 1⟩ : PendingRemoveEntry)) :: h.pendingRemove
    some ({ h with pendingRemove := m }, removeFanout h.listeners gid)
  | some entry =>
    if entry.removeSerialNum < serial then
      if serialLt entry.putSerialNum serial then
        let m := pendingUpdate h.pendingRemove gid ⟨serial, entry.putSerialNum, entry.refCount + 1⟩
        some ({ h with pendingRemove := m },
              if serialGtRemove entry.putSerialNum entry.removeSerialNum then
                removeFanout h.listeners gid
              else [])
      else none
    else none

/-- GidToLidChangeHandler::notifyRemoveDone(gid, serialNum). -/
def notifyRemoveDoneSerial (h : GidToLidChangeHandler) (gid : GlobalId)
    (serial : SerialNum) :
    Option (GidToLidChangeHandler × List Notification) :=
  match pendingLookup h.pendingRemove gid with
  | none => none
  | some entry =>
    if entry.removeSerialNum < serial then none
    else if entry.refCount = 1 then
      some ({ h with pendingRemove := pendingErase h.pendingRemove gid }, [])
    else
      let m := pendingUpdate h.pendingRemove gid { entry with refCount := entry.refCount - 1 }
      some ({ h with pendingRemove := m }, [])

/-- GidToLidChangeHandler::close(): set closed, move every listener out of
the registry (they are destroyed after the lock is released). -/
def closeHandler (h : GidToLidChangeHandler) :
    GidToLidChangeHandler × List Notification :=
  ({ h with closed := true, listeners := [] }, [])

/-- Identity used to deduplicate listeners: document-type name and name. -/
def sameIdent (a b : Listener) : Bool :=
  a.docTypeName == b.docTypeName && a.name == b.name

/-- GidToLidChangeHandler::addListener(listener). -/
def addListener (h : GidToLidChangeHandler) (l : Listener) :
    Option (GidToLidChangeHandler × List Notification) :=
  if h.closed = false then
    if h.listeners.any (fun o => sameIdent o l) then
      some (h, [])
    else
      some ({ h with listeners := h.listeners ++ [l] }, [(l, Event.registered)])
  else if h.listeners.isEmpty then some (h, [])
  else none

/-- Anonymous-namespace helper shouldRemoveListener from the source file. -/
def shouldRemoveListener (l : Listener) (docTypeName : String)
    (keepNames : List String) : Bool :=
  l.docTypeName == docTypeName && !(keepNames.contains l.name)

/-- GidToLidChangeHandler::removeListeners(docTypeName, keepNames). -/
def removeListeners (h : GidToLidChangeHandler) (docTypeName : String)
    (keepNames : List String) :
    Option (GidToLidChangeHandler × List Notification) :=
  if h.closed = false then
    some ({ h with listeners :=
              h.listeners.filter (fun l => !(shouldRemoveListener l docTypeName keepNames)) },
          [])
  else if h.listeners.isEmpty then some (h, [])
  else none

/-- One call into the handler. -/
inductive Op where
  | putDone (gid : GlobalId) (lid : Nat) (serial : SerialNum)
  | remove (gid : GlobalId) (serial : SerialNum)
  | removeDone (gid : GlobalId) (serial : SerialNum)
  | addL (l : Listener)
  | removeL (docTypeName : String) (keepNames : List String)
  | closeOp
deriving DecidableEq, Repr

/-- Execute one call on the handler. -/
def step (h : GidToLidChangeHandler) :
    Op → Option (GidToLidChangeHandler × List Notification)
  | Op.putDone g l s => notifyPutDoneSerial h g l s
  | Op.remove g s => notifyRemoveSerial h g s
  | Op.removeDone g s => notifyRemoveDoneSerial h g s
  | Op.addL l => addListener h l
  | Op.removeL d keep => removeListeners h d keep
  | Op.closeOp => some (closeHandler h)

/-- Execute a sequence of calls, collecting the notification batch of each
call; none as soon as any call is fatal. -/
def run (h : GidToLidChangeHandler) :
    List Op → Option (GidToLidChangeHandler × List (List Notification))
  | [] => some (h, [])
  | op :: ops =>
    match step h op with
    | none => none
    | some (h', batch) =>
      match run h' ops with
      | none => none
      | some (h'', batches) => some (h'', batch :: batches)

/-! ### History-derived quantities used by the claims -/

/-- Number of notifyRemove calls for gid g in an operation sequence. -/
def removeCount (g : GlobalId) : List Op → Nat
  | [] => 0
  | Op.remove g' _ :: ops => (if g' = g then 1 else 0) + removeCount g ops
  | _ :: ops => removeCount g ops

/-- Number of notifyRemoveDone calls for gid g in an operation sequence. -/
def doneCount (g : GlobalId) : List Op → Nat
  | [] => 0
  | Op.removeDone g' _ :: ops => (if g' = g then 1 else 0) + doneCount g ops
  | _ :: ops => doneCount g ops

/-- Serial numbers of the operations on gid g whose execution actually
delivered a notification batch to the listeners (suppressed operations,
operations on other gids and operations that never fan out are skipped).
The two lists are an operation sequence and the batch produced by each
operation, as returned by run. -/
def deliveredSerials (g : GlobalId) :
    List Op → List (List Notification) → List SerialNum
  | Op.putDone g' _ s :: ops, b :: bs =>
    if g' = g ∧ b ≠ [] then s :: deliveredSerials g ops bs
    else deliveredSerials g ops bs
  | Op.remove g' s :: ops, b :: bs =>
    if g' = g ∧ b ≠ [] then s :: deliveredSerials g ops bs
    else deliveredSerials g ops bs
  | _ :: ops, _ :: bs => deliveredSerials g ops bs
  | _, _ => []

/-- Caller contract of spec section 6 for gid g, as far as it is observable
in the arrival order of the calls: serial numbers come from a single
monotonic assignment (so all write operations carry pairwise distinct
serials, and a put and a remove on the same gid never share one), and
every removeDone matches exactly one earlier remove with the same serial.
P, R and D accumulate the serials of the already-seen puts, removes and
removeDones on g. -/
def claimContract (g : GlobalId) (P R D : List SerialNum) : List Op → Prop
  | [] => ∀ r ∈ R, r ∈ D
  | Op.putDone g' _ s :: ops =>
    if g' = g then
      ((∀ p ∈ P, p ≠ s) ∧ (∀ r ∈ R, r ≠ s)) ∧ claimContract g (s :: P) R D ops
    else claimContract g P R D ops
  | Op.remove g' s :: ops =>
    if g' = g then
      ((∀ p ∈ P, p ≠ s) ∧ (∀ r ∈ R, r ≠ s)) ∧ claimContract g P (s :: R) D ops
    else claimContract g P R D ops
  | Op.removeDone g' s :: ops =>
    if g' = g then
      (s ∈ R ∧ s ∉ D) ∧ claimContract g P R (s :: D) ops
    else claimContract g P R D ops
  | _ :: ops => claimContract g P R D ops

/-- Strengthened caller contract for gid g under which the handler's
deliveries are provably ordered: in addition to distinct serials and
remove/removeDone pairing, the arrival order must satisfy, per gid, that
puts arrive in increasing serial order, that removes arrive in increasing
serial order, that every put arrives after each remove carrying a smaller
serial (equivalently, a put observed before a remove has the smaller
serial), and that a put never arrives after the removeDone of a remove
with a greater serial. -/
def orderedContract (g : GlobalId) (P R D : List SerialNum) : List Op → Prop
  | [] => True
  | Op.putDone g' _ s :: ops =>
    if g' = g then
      ((∀ p ∈ P, p < s) ∧ (∀ r ∈ R, r ≠ s) ∧ (∀ d ∈ D, d < s)) ∧
        orderedContract g (s :: P) R D ops
    else orderedContract g P R D ops
  | Op.remove g' s :: ops =>
    if g' = g then
      ((∀ r ∈ R, r < s) ∧ (∀ p ∈ P, p < s)) ∧ orderedContract g P (s :: R) D ops
    else orderedContract g P R D ops
  | Op.removeDone g' s :: ops =>
    if g' = g then
      (s ∈ R ∧ s ∉ D) ∧ orderedContract g P R (s :: D) ops
    else orderedContract g P R D ops
  | _ :: ops => orderedContract g P R D ops

/-- Number of remove serials registered and not yet completed, as recorded
by the seen-lists of the contract. -/
def outstandingCount (R D : List SerialNum) : Nat :=
  (R.filter (fun r => decide (r ∉ D))).length

/-! ### Invariants and fixtures -/

/-- Largest serial recorded in an entry (the removeSerialNum, or the
putSerialNum when that one is set and larger). -/
def entryMax (e : PendingRemoveEntry) : SerialNum :=
  match e.putSerialNum with
  | none => e.removeSerialNum
  | some p => max e.removeSerialNum p

/-- An optional strict lower bound: every serial behind B lies below t. -/
def optBelow (B : Option SerialNum) (t : SerialNum) : Prop :=
  ∀ b, B = some b → b < t

/-- Invariant tying the handler's pending entry for g to the seen-lists of
the contract and to a bound B dominating every already-delivered serial. -/
def deliveryInv (g : GlobalId) (h : GidToLidChangeHandler)
    (P R D : List SerialNum) (B : Option SerialNum) : Prop :=
  R.Nodup ∧ (∀ d ∈ D, d ∈ R) ∧ (∀ b, B = some b → b ∈ P ∨ b ∈ R) ∧
  (match pendingLookup h.pendingRemove g with
   | none => ∀ r ∈ R, r ∈ D
   | some e =>
     e.removeSerialNum ∈ R ∧ (∀ r ∈ R, r ≤ e.removeSerialNum) ∧
     (∀ p, e.putSerialNum = some p → p ∈ P) ∧
     (∀ b, B = some b → b ≤ entryMax e) ∧
     e.refCount = outstandingCount R D)

/-- No pending entry ever records equal put and remove serial numbers. -/
def serialsNeInv (h : GidToLidChangeHandler) : Prop :=
  ∀ g e, pendingLookup h.pendingRemove g = some e →
    e.putSerialNum ≠ some e.removeSerialNum

/-- Relation between the pending entry for g and the numbers of removes
and removeDones already executed for g. -/
def refCountInv (g : GlobalId) (h : GidToLidChangeHandler) (r d : Nat) : Prop :=
  match pendingLookup h.pendingRemove g with
  | none => r = d
  | some e => e.refCount + d = r ∧ 1 ≤ e.refCount

/-- Number of listeners in a registry carrying a given identity. -/
def identCount (d n : String) (ls : List Listener) : Nat :=
  (ls.filter (fun o => o.docTypeName == d && o.name == n)).length

/-- Number of registration callbacks contained in a list of batches. -/
def registeredCount (bs : List (List Notification)) : Nat :=
  (bs.flatten.filter (fun n => n.2 == Event.registered)).length

/-- Concrete listeners used to instantiate theorems with hypotheses. -/
def lsnrA : Listener := ⟨0, "typeA", "refA"⟩

def lsnrB : Listener := ⟨1, "typeA", "keep"⟩

def lsnrC : Listener := ⟨2, "typeB", "refA"⟩

def lsnrA1 : Listener := ⟨3, "typeA", "refA"⟩

def lsnrA2 : Listener := ⟨4, "typeA", "refA"⟩

/-- An open handler with a single registered listener. -/
def oneListenerHandler : GidToLidChangeHandler :=
  { listeners := [lsnrA], closed := false, pendingRemove := [] }

/-- An open handler with one listener and a pending remove for gid 5 at
serial 10. -/
def pendingHandler : GidToLidChangeHandler :=
  { listeners := [lsnrA], closed := false,
    pendingRemove := [(5, ⟨10, none, 1⟩)] }

/-- A call sequence satisfying the observable caller contract of the spec
under which the handler nevertheless delivers out of serial order for
gid 0: the pending entry of the remove at serial 10 is drained before the
put completion at serial 5 arrives. -/
def outOfOrderOps : List Op :=
  [Op.addL lsnrA, Op.remove 0 10, Op.removeDone 0 10, Op.putDone 0 7 5]

/-! ### Association-list lemmas for the pending remove table -/

theorem pendingLookup_update_self (m : List (GlobalId × PendingRemoveEntry))
    (g : GlobalId) (e e' : PendingRemoveEntry)
    (hm : pendingLookup m g = some e) :
    pendingLookup (pendingUpdate m g e') g = some e' := by
  induction m with
  | nil => simp [pendingLookup] at hm
  | cons p rest ih =>
    obtain ⟨k, e₀⟩ := p
    by_cases hk : k = g
    · subst hk
      simp [pendingLookup, pendingUpdate]
    · simp [pendingLookup, pendingUpdate, hk] at hm ⊢
      exact ih hm

theorem pendingLookup_update_ne (m : List (GlobalId × PendingRemoveEntry))
    (g g' : GlobalId) (e' : PendingRemoveEntry) (hne : g' ≠ g) :
    pendingLookup (pendingUpdate m g' e') g = pendingLookup m g := by
  induction m with
  | nil => simp [pendingLookup, pendingUpdate]
  | cons p rest ih =>
    obtain ⟨k, e₀⟩ := p
    by_cases hk : k = g'
    · subst hk
      simp [pendingLookup, pendingUpdate, hne, ih]
    · by_cases hkg : k = g
      · subst hkg
        simp [pendingLookup, pendingUpdate, hk]
      · simp [pendingLookup, pendingUpdate, hk, hkg, ih]

theorem pendingLookup_erase_self (m : List (GlobalId × PendingRemoveEntry))
    (g : GlobalId) :
    pendingLookup (pendingErase m g) g = none := by
  induction m with
  | nil => simp [pendingLookup, pendingErase]
  | cons p rest ih =>
    obtain ⟨k, e₀⟩ := p
    by_cases hk : k = g
    · simp [pendingErase, hk, ih]
    · simp [pendingLookup, pendingErase, hk, ih]

theorem pendingLookup_erase_ne (m : List (GlobalId × PendingRemoveEntry))
    (g g' : GlobalId) (hne : g' ≠ g) :
    pendingLookup (pendingErase m g') g = pendingLookup m g := by
  induction m with
  | nil => simp [pendingLookup, pendingErase]
  | cons p rest ih =>
    obtain ⟨k, e₀⟩ := p
    by_cases hk : k = g'
    · subst hk
      simp [pendingLookup, pendingErase, hne, ih]
    · by_cases hkg : k = g
      · subst hkg
        simp [pendingLookup, pendingErase, hk]
      · simp [pendingLookup, pendingErase, hk, hkg, ih]

theorem pendingLookup_update_none (m : List (GlobalId × PendingRemoveEntry))
    (g : GlobalId) (e' : PendingRemoveEntry)
    (hm : pendingLookup m g = none) :
    pendingUpdate m g e' = m := by
  induction m with
  | nil => simp [pendingUpdate]
  | cons p rest ih =>
    obtain ⟨k, e₀⟩ := p
    by_cases hk : k = g
    · simp [pendingLookup, hk] at hm
    · simp [pendingLookup, hk] at hm
      simp [pendingUpdate, hk, ih hm]

/-! ### Claim theorems: single-call behavior -/

/-- C1: notifyPutDone(gid, lid, serial) — with no pending entry the put is
fanned out to every registered listener; with an entry it is fatal when
removeSerialNum = serial, suppressed (no notification, no state change)
when removeSerialNum > serial, fatal when removeSerialNum < serial but
putSerialNum is not strictly below serial, and otherwise records
putSerialNum = serial and fans the put out to every listener. -/
theorem notifyPutDone_spec (h : GidToLidChangeHandler) (gid : GlobalId)
    (lid : Nat) (serial : SerialNum) :
    (pendingLookup h.pendingRemove gid = none →
      notifyPutDoneSerial h gid lid serial = some (h, putDoneFanout h.listeners gid lid)) ∧
    (∀ e, pendingLookup h.pendingRemove gid = some e →
      (e.removeSerialNum = serial → notifyPutDoneSerial h gid lid serial = none) ∧
      (serial < e.removeSerialNum → notifyPutDoneSerial h gid lid serial = some (h, [])) ∧
      (e.removeSerialNum < serial → serialLt e.putSerialNum serial = false →
        notifyPutDoneSerial h gid lid serial = none) ∧
      (e.removeSerialNum < serial → serialLt e.putSerialNum serial = true →
        notifyPutDoneSerial h gid lid serial =
          some ({ h with pendingRemove := pendingUpdate h.pendingRemove gid { e with putSerialNum := some serial } },
                putDoneFanout h.listeners gid lid))) := by
  constructor
  · intro hl
    simp [notifyPutDoneSerial, hl]
  · intro e hl
    refine ⟨?_, ?_, ?_, ?_⟩
    · intro heq
      simp [notifyPutDoneSerial, hl, heq]
    · intro hlt
      have hne : e.removeSerialNum ≠ serial := (Nat.ne_of_lt hlt).symm
      simp [notifyPutDoneSerial, hl, hne, hlt]
    · intro hgt hps
      have hne : e.removeSerialNum ≠ serial := Nat.ne_of_lt hgt
      have hnlt : ¬ serial < e.removeSerialNum := Nat.lt_asymm hgt
      simp [notifyPutDoneSerial, hl, hne, hnlt, hps]
    · intro hgt hps
      have hne : e.removeSerialNum ≠ serial := Nat.ne_of_lt hgt
      have hnlt : ¬ serial < e.removeSerialNum := Nat.lt_asymm hgt
      simp [notifyPutDoneSerial, hl, hne, hnlt, hps]

/-- Witness for notifyPutDone_spec: on pendingHandler, gid 0 has no entry
and the put at serial 7 is fanned out, while gid 5 (pending remove at
serial 10) suppresses the same put. -/
theorem notifyPutDone_spec_witness :
    notifyPutDoneSerial pendingHandler 0 3 7 = some (pendingHandler, putDoneFanout pendingHandler.listeners 0 3) ∧
    notifyPutDoneSerial pendingHandler 5 3 7 = some (pendingHandler, []) :=
  ⟨(notifyPutDone_spec pendingHandler 0 3 7).1 (by decide),
   ((notifyPutDone_spec pendingHandler 5 3 7).2 ⟨10, none, 1⟩ (by decide)).2.1 (by decide)⟩

/-- C2: notifyRemove(gid, serial) — with no entry, an entry
(removeSerialNum = serial, putSerialNum unset, refCount = 1) is created
and the remove is fanned out to every listener; with an entry, the call
is fatal unless serial is strictly above both recorded serials, a remove
is fanned out exactly when removeSerialNum < putSerialNum, and the entry
is updated to removeSerialNum = serial with refCount incremented. -/
theorem notifyRemove_spec (h : GidToLidChangeHandler) (gid : GlobalId)
    (serial : SerialNum) :
    (pendingLookup h.pendingRemove gid = none →
      notifyRemoveSerial h gid serial =
        some ({ h with pendingRemove := (gid, ⟨serial, none, 1⟩) :: h.pendingRemove },
              removeFanout h.listeners gid)) ∧
    (∀ e, pendingLookup h.pendingRemove gid = some e →
      (¬ (e.removeSerialNum < serial ∧ serialLt e.putSerialNum serial = true) →
        notifyRemoveSerial h gid serial = none) ∧
      (e.removeSerialNum < serial → serialLt e.putSerialNum serial = true →
        notifyRemoveSerial h gid serial =
          some ({ h with pendingRemove := pendingUpdate h.pendingRemove gid ⟨serial, e.putSerialNum, e.refCount + 1⟩ },
                if serialGtRemove e.putSerialNum e.removeSerialNum then removeFanout h.listeners gid
                else []))) := by
  constructor
  · intro hl
    simp [notifyRemoveSerial, hl]
  · intro e hl
    constructor
    · intro hnot
      by_cases h1 : e.removeSerialNum < serial
      · have h2 : serialLt e.putSerialNum serial = false := by
          cases h3 : serialLt e.putSerialNum serial
          · rfl
          · exact absurd ⟨h1, h3⟩ hnot
        simp [notifyRemoveSerial, hl, h1, h2]
      · simp [notifyRemoveSerial, hl, h1]
    · intro h1 h2
      simp [notifyRemoveSerial, hl, h1, h2]

/-- Witness for notifyRemove_spec: creation of a fresh entry for gid 0 on
pendingHandler, and the update path for gid 5 at serial 12 (no fan out,
since the recorded putSerialNum is unset and hence below the recorded
removeSerialNum 10). -/
theorem notifyRemove_spec_witness :
    notifyRemoveSerial pendingHandler 0 12 =
      some ({ pendingHandler with pendingRemove := (0, ⟨12, none, 1⟩) :: pendingHandler.pendingRemove },
            removeFanout pendingHandler.listeners 0) ∧
    notifyRemoveSerial pendingHandler 5 12 =
      some ({ pendingHandler with pendingRemove := pendingUpdate pendingHandler.pendingRemove 5 ⟨12, none, 2⟩ },
            (if serialGtRemove none 10 then removeFanout pendingHandler.listeners 5 else [])) :=
  ⟨(notifyRemove_spec pendingHandler 0 12).1 (by decide),
   ((notifyRemove_spec pendingHandler 5 12).2 ⟨10, none, 1⟩ (by decide)).2 (by decide) (by decide)⟩

/-- C3: notifyRemoveDone(gid, serial) is fatal exactly when no entry
exists for gid or the entry's removeSerialNum is strictly below serial;
otherwise it erases the entry when refCount = 1 (after which any further
notifyRemoveDone for gid is fatal) and decrements refCount otherwise. -/
theorem notifyRemoveDone_spec (h : GidToLidChangeHandler) (gid : GlobalId)
    (serial : SerialNum) :
    (notifyRemoveDoneSerial h gid serial = none ↔
      pendingLookup h.pendingRemove gid = none ∨
      ∃ e, pendingLookup h.pendingRemove gid = some e ∧ e.removeSerialNum < serial) ∧
    (∀ e, pendingLookup h.pendingRemove gid = some e → serial ≤ e.removeSerialNum →
      (e.refCount = 1 →
        notifyRemoveDoneSerial h gid serial =
          some ({ h with pendingRemove := pendingErase h.pendingRemove gid }, []) ∧
        (∀ s', notifyRemoveDoneSerial { h with pendingRemove := pendingErase h.pendingRemove gid } gid s' = none)) ∧
      (e.refCount ≠ 1 →
        notifyRemoveDoneSerial h gid serial =
          some ({ h with pendingRemove := pendingUpdate h.pendingRemove gid { e with refCount := e.refCount - 1 } },
                []))) := by
  constructor
  · cases hl : pendingLookup h.pendingRemove gid with
    | none => simp [notifyRemoveDoneSerial, hl]
    | some e =>
      by_cases h1 : e.removeSerialNum < serial
      · simp [notifyRemoveDoneSerial, hl, h1]
      · by_cases h2 : e.refCount = 1 <;> simp [notifyRemoveDoneSerial, hl, h1, h2]
  · intro e hl hle
    have h1 : ¬ e.removeSerialNum < serial := Nat.not_lt.mpr hle
    constructor
    · intro h2
      refine ⟨by simp [notifyRemoveDoneSerial, hl, h1, h2], fun s' => ?_⟩
      simp [notifyRemoveDoneSerial, pendingLookup_erase_self]
    · intro h2
      simp [notifyRemoveDoneSerial, hl, h1, h2]

/-- Witness for notifyRemoveDone_spec: draining the entry of pendingHandler
for gid 5 at serial 10 erases it, and the immediately following
notifyRemoveDone for gid 5 is fatal. -/
theorem notifyRemoveDone_spec_witness :
    notifyRemoveDoneSerial pendingHandler 5 10 =
      some ({ pendingHandler with pendingRemove := pendingErase pendingHandler.pendingRemove 5 }, []) ∧
    notifyRemoveDoneSerial { pendingHandler with pendingRemove := pendingErase pendingHandler.pendingRemove 5 } 5 10 = none := by
  have h := ((notifyRemoveDone_spec pendingHandler 5 10).2 ⟨10, none, 1⟩ (by decide) (by decide)).1 (by decide)
  exact ⟨h.1, h.2 10⟩

/-- C10: the suppressed path of notifyPutDone (an entry exists for gid
with removeSerialNum strictly above serial) leaves the handler state
unchanged and delivers no notification. -/
theorem notifyPutDone_suppressed_frame (h : GidToLidChangeHandler)
    (gid : GlobalId) (lid : Nat) (serial : SerialNum) (e : PendingRemoveEntry)
    (hl : pendingLookup h.pendingRemove gid = some e)
    (hgt : serial < e.removeSerialNum) :
    notifyPutDoneSerial h gid lid serial = some (h, []) := by
  have hne : e.removeSerialNum ≠ serial := (Nat.ne_of_lt hgt).symm
  simp [notifyPutDoneSerial, hl, hne, hgt]

/-- Witness for notifyPutDone_suppressed_frame on pendingHandler (entry
for gid 5 at remove serial 10, put completion at serial 7). -/
theorem notifyPutDone_suppressed_frame_witness :
    notifyPutDoneSerial pendingHandler 5 3 7 = some (pendingHandler, []) :=
  notifyPutDone_suppressed_frame pendingHandler 5 3 7 ⟨10, none, 1⟩ (by decide) (by decide)

/-- C9: removeListeners on an open handler keeps exactly the listeners
that are not of the given document type or whose name is kept, in their
original relative order (the result is a sublist of the registry), and
neither the pending remove table nor the closed flag changes. -/
theorem removeListeners_spec (h : GidToLidChangeHandler) (docTypeName : String)
    (keepNames : List String) (hopen : h.closed = false) :
    removeListeners h docTypeName keepNames =
      some ({ h with listeners := h.listeners.filter (fun l => !(shouldRemoveListener l docTypeName keepNames)) }, []) ∧
    (∀ l, l ∈ h.listeners.filter (fun l => !(shouldRemoveListener l docTypeName keepNames)) ↔
      l ∈ h.listeners ∧ ¬ (l.docTypeName = docTypeName ∧ l.name ∉ keepNames)) ∧
    (h.listeners.filter (fun l => !(shouldRemoveListener l docTypeName keepNames))).Sublist h.listeners := by
  refine ⟨by simp [removeListeners, hopen], fun l => ?_, List.filter_sublist _⟩
  simp only [List.mem_filter, shouldRemoveListener]
  refine and_congr_right fun _ => ?_
  simp
  tauto

/-- Witness for removeListeners_spec: on a handler with listeners of
identities (typeA, refA), (typeA, keep), (typeB, refA), removing typeA
while keeping name keep drops exactly lsnrA. -/
theorem removeListeners_spec_witness :
    removeListeners { listeners := [lsnrA, lsnrB, lsnrC], closed := false, pendingRemove := [] } "typeA" ["keep"] =
      some ({ listeners := [lsnrB, lsnrC], closed := false, pendingRemove := [] }, []) := by
  have h := (removeListeners_spec { listeners := [lsnrA, lsnrB, lsnrC], closed := false, pendingRemove := [] } "typeA" ["keep"] (by decide)).1
  rw [h]
  rfl

/-! ### Claim theorems: listener registration and close -/

/-- On a closed handler with an empty registry, every call keeps the
registry empty and the closed flag set, and delivers nothing. -/
theorem step_closed_empty (h : GidToLidChangeHandler) (op : Op)
    (h1 : GidToLidChangeHandler) (b : List Notification)
    (hcl : h.closed = true) (hle : h.listeners = [])
    (hs : step h op = some (h1, b)) :
    h1.closed = true ∧ h1.listeners = [] ∧ b = [] := by
  cases op with
  | putDone g l s =>
    simp only [step, notifyPutDoneSerial, hle, putDoneFanout, List.map_nil] at hs
    split at hs
    · split at hs
      · cases hs
      · split at hs
        · cases hs
          exact ⟨by simp [hcl], by simp [hle], rfl⟩
        · split at hs
          · cases hs
            exact ⟨by simp [hcl], by simp [hle], rfl⟩
          · cases hs
    · cases hs
      exact ⟨by simp [hcl], by simp [hle], rfl⟩
  | remove g s =>
    simp only [step, notifyRemoveSerial, hle, removeFanout, List.map_nil] at hs
    split at hs
    · cases hs
      exact ⟨by simp [hcl], by simp [hle], rfl⟩
    · split at hs
      · split at hs
        · split at hs <;> cases hs <;> exact ⟨by simp [hcl], by simp [hle], rfl⟩
        · cases hs
      · cases hs
  | removeDone g s =>
    simp only [step, notifyRemoveDoneSerial] at hs
    split at hs
    · cases hs
    · split at hs
      · cases hs
      · split at hs <;> cases hs <;> exact ⟨by simp [hcl], by simp [hle], rfl⟩
  | addL l =>
    simp only [step, addListener, hcl, hle, List.isEmpty_nil] at hs
    cases hs
    exact ⟨by simp [hcl], by simp [hle], rfl⟩
  | removeL d keep =>
    simp only [step, removeListeners, hcl, hle, List.isEmpty_nil] at hs
    cases hs
    exact ⟨by simp [hcl], by simp [hle], rfl⟩
  | closeOp =>
    simp only [step, closeHandler] at hs
    cases hs
    exact ⟨rfl, rfl, rfl⟩

/-- Closed-and-empty is preserved along any run, and such a run delivers
no notification at all. -/
theorem run_closed_empty (ops : List Op) (h : GidToLidChangeHandler)
    (hcl : h.closed = true) (hle : h.listeners = []) :
    ∀ h' bs, run h ops = some (h', bs) →
      h'.closed = true ∧ h'.listeners = [] ∧ ∀ b ∈ bs, b = [] := by
  induction ops generalizing h with
  | nil =>
    intro h' bs hr
    rw [run] at hr
    cases hr
    exact ⟨hcl, hle, by simp⟩
  | cons op ops ih =>
    intro h' bs hr
    rw [run] at hr
    cases hstep : step h op with
    | none =>
      simp only [hstep] at hr
      cases hr
    | some p =>
      obtain ⟨h1, b⟩ := p
      simp only [hstep] at hr
      cases hrun : run h1 ops with
      | none =>
        simp only [hrun] at hr
        cases hr
      | some q =>
        obtain ⟨h2, bs'⟩ := q
        simp only [hrun] at hr
        cases hr
        obtain ⟨hcl1, hle1, hb⟩ := step_closed_empty h op h1 b hcl hle hstep
        obtain ⟨hcl2, hle2, hbs⟩ := ih h1 hcl1 hle1 _ _ hrun
        refine ⟨hcl2, hle2, ?_⟩
        intro x hx
        rcases List.mem_cons.mp hx with hx | hx
        · exact hx ▸ hb
        · exact hbs x hx

/-- C8: after close() the closed flag is set and the registry is empty;
a second close leaves the state unchanged; and along every non-fatal
continuation the registry stays empty, the flag stays set, and no
notification whatsoever is delivered (in particular none to a previously
registered listener). -/
theorem close_spec (h : GidToLidChangeHandler) (ops : List Op)
    (h2 : GidToLidChangeHandler) (bs : List (List Notification))
    (hrun : run (closeHandler h).1 ops = some (h2, bs)) :
    (closeHandler h).1.closed = true ∧ (closeHandler h).1.listeners = [] ∧
    closeHandler (closeHandler h).1 = closeHandler h ∧
    h2.closed = true ∧ h2.listeners = [] ∧ ∀ b ∈ bs, b = [] := by
  obtain ⟨hcl, hle, hbs⟩ :=
    run_closed_empty ops (closeHandler h).1 rfl rfl h2 bs hrun
  exact ⟨rfl, rfl, rfl, hcl, hle, hbs⟩

/-- Witness for close_spec: closing the one-listener handler and then
running a put completion followed by a second close delivers nothing. -/
theorem close_spec_witness :
    ((closeHandler oneListenerHandler).1.closed = true ∧
     (closeHandler oneListenerHandler).1.listeners = [] ∧
     closeHandler (closeHandler oneListenerHandler).1 = closeHandler oneListenerHandler ∧
     ({ listeners := [], closed := true, pendingRemove := [] } : GidToLidChangeHandler).closed = true ∧
     ({ listeners := [], closed := true, pendingRemove := [] } : GidToLidChangeHandler).listeners = [] ∧
     ∀ b ∈ [([] : List Notification), []], b = []) :=
  close_spec oneListenerHandler [Op.putDone 0 1 5, Op.closeOp]
    { listeners := [], closed := true, pendingRemove := [] } [[], []] (by rfl)

/-- C7 (amended): on an open handler with no listener of the given
identity, the first addListener appends and synchronously invokes the
registration callback exactly once on it, the second identical add is
discarded without effect, and exactly one listener of that identity
remains; if such a listener is already registered, both calls are
discarded and no registration callback fires at all; on a closed handler
addListener is a no-op and is fatal exactly when the registry is
non-empty. -/
theorem addListener_twice_spec (h : GidToLidChangeHandler) (l1 l2 : Listener)
    (hid : l1.docTypeName = l2.docTypeName ∧ l1.name = l2.name) :
    (h.closed = false → h.listeners.any (fun o => sameIdent o l1) = false →
      run h [Op.addL l1, Op.addL l2] =
        some ({ h with listeners := h.listeners ++ [l1] }, [[(l1, Event.registered)], []]) ∧
      identCount l1.docTypeName l1.name (h.listeners ++ [l1]) = 1) ∧
    (h.closed = false → h.listeners.any (fun o => sameIdent o l1) = true →
      run h [Op.addL l1, Op.addL l2] = some (h, [[], []])) ∧
    (h.closed = true → h.listeners = [] → step h (Op.addL l1) = some (h, [])) ∧
    (h.closed = true → h.listeners ≠ [] → step h (Op.addL l1) = none) := by
  obtain ⟨hd, hn⟩ := hid
  have hsame : ∀ o, sameIdent o l2 = sameIdent o l1 := by
    intro o
    simp [sameIdent, hd, hn]
  refine ⟨?_, ?_, ?_, ?_⟩
  · intro hop hno
    constructor
    · have hs12 : sameIdent l1 l2 = true := by
        simp [sameIdent, hd, hn]
      simp [run, step, addListener, hop, hno, hs12]
    · have h0 : identCount l1.docTypeName l1.name h.listeners = 0 := by
        simp only [identCount, List.length_eq_zero, List.filter_eq_nil_iff]
        intro o ho
        have h3 := List.any_eq_false.mp hno o ho
        simpa [sameIdent] using h3
      simp only [identCount, List.filter_append, List.length_append]
      simp only [identCount] at h0
      simp [h0]
  · intro hop hyes
    have h2 : h.listeners.any (fun o => sameIdent o l2) = true := by
      simpa [hsame] using hyes
    simp [run, step, addListener, hop, hyes, h2]
  · intro hcl hle
    simp [step, addListener, hcl, hle]
  · intro hcl hle
    simp [step, addListener, hcl, hle]

/-- Witness for addListener_twice_spec: two adds of identity
(typeA, refA) on the fresh handler register exactly the first handle. -/
theorem addListener_twice_spec_witness :
    run initialHandler [Op.addL lsnrA1, Op.addL lsnrA2] =
      some ({ initialHandler with listeners := [lsnrA1] }, [[(lsnrA1, Event.registered)], []]) ∧
    identCount "typeA" "refA" [lsnrA1] = 1 := by
  have h := (addListener_twice_spec initialHandler lsnrA1 lsnrA2 (by constructor <;> rfl)).1
    rfl (by rfl)
  simpa [initialHandler, lsnrA1] using h

/-- C7, the claim as stated, is false: on an open handler already holding
a listener of identity (typeA, refA), two further addListener calls with
that identity invoke no registration callback at all (the claim demands
exactly one invocation, on the first of the two handles). -/
theorem addListener_twice_cex :
    oneListenerHandler.closed = false ∧
    run oneListenerHandler [Op.addL lsnrA1, Op.addL lsnrA2] =
      some (oneListenerHandler, [[], []]) ∧
    registeredCount [[], []] = 0 := by
  refine ⟨rfl, ?_, rfl⟩
  rfl

/-! ### Case lemmas for the three serial-number aware operations -/

theorem putDoneSerial_no_entry (h : GidToLidChangeHandler) (g : GlobalId)
    (l : Nat) (s : SerialNum) (hl : pendingLookup h.pendingRemove g = none) :
    notifyPutDoneSerial h g l s = some (h, putDoneFanout h.listeners g l) := by
  simp [notifyPutDoneSerial, hl]

theorem putDoneSerial_fatal_eq (h : GidToLidChangeHandler) (g : GlobalId)
    (l : Nat) (s : SerialNum) (e : PendingRemoveEntry)
    (hl : pendingLookup h.pendingRemove g = some e)
    (he : e.removeSerialNum = s) :
    notifyPutDoneSerial h g l s = none := by
  simp [notifyPutDoneSerial, hl, he]

theorem putDoneSerial_suppressed (h : GidToLidChangeHandler) (g : GlobalId)
    (l : Nat) (s : SerialNum) (e : PendingRemoveEntry)
    (hl : pendingLookup h.pendingRemove g = some e)
    (hlt : s < e.removeSerialNum) :
    notifyPutDoneSerial h g l s = some (h, []) := by
  have hne : e.removeSerialNum ≠ s := (Nat.ne_of_lt hlt).symm
  simp [notifyPutDoneSerial, hl, hne, hlt]

theorem putDoneSerial_fatal_stale (h : GidToLidChangeHandler) (g : GlobalId)
    (l : Nat) (s : SerialNum) (e : PendingRemoveEntry)
    (hl : pendingLookup h.pendingRemove g = some e)
    (hgt : e.removeSerialNum < s) (hps : serialLt e.putSerialNum s = false) :
    notifyPutDoneSerial h g l s = none := by
  have hne : e.removeSerialNum ≠ s := Nat.ne_of_lt hgt
  have hnlt : ¬ s < e.removeSerialNum := Nat.lt_asymm hgt
  simp [notifyPutDoneSerial, hl, hne, hnlt, hps]

theorem putDoneSerial_update (h : GidToLidChangeHandler) (g : GlobalId)
    (l : Nat) (s : SerialNum) (e : PendingRemoveEntry)
    (hl : pendingLookup h.pendingRemove g = some e)
    (hgt : e.removeSerialNum < s) (hps : serialLt e.putSerialNum s = true) :
    notifyPutDoneSerial h g l s =
      some ({ h with pendingRemove := pendingUpdate h.pendingRemove g { e with putSerialNum := some s } },
            putDoneFanout h.listeners g l) := by
  have hne : e.removeSerialNum ≠ s := Nat.ne_of_lt hgt
  have hnlt : ¬ s < e.removeSerialNum := Nat.lt_asymm hgt
  simp [notifyPutDoneSerial, hl, hne, hnlt, hps]

theorem removeSerial_no_entry (h : GidToLidChangeHandler) (g : GlobalId)
    (s : SerialNum) (hl : pendingLookup h.pendingRemove g = none) :
    notifyRemoveSerial h g s =
      some ({ h with pendingRemove := (g, ⟨s, none, 1⟩) :: h.pendingRemove },
            removeFanout h.listeners g) := by
  simp [notifyRemoveSerial, hl]

theorem removeSerial_fatal (h : GidToLidChangeHandler) (g : GlobalId)
    (s : SerialNum) (e : PendingRemoveEntry)
    (hl : pendingLookup h.pendingRemove g = some e)
    (hbad : ¬ (e.removeSerialNum < s ∧ serialLt e.putSerialNum s = true)) :
    notifyRemoveSerial h g s = none := by
  by_cases h1 : e.removeSerialNum < s
  · have h2 : serialLt e.putSerialNum s = false := by
      cases h3 : serialLt e.putSerialNum s
      · rfl
      · exact absurd ⟨h1, h3⟩ hbad
    simp [notifyRemoveSerial, hl, h1, h2]
  · simp [notifyRemoveSerial, hl, h1]

theorem removeSerial_update (h : GidToLidChangeHandler) (g : GlobalId)
    (s : SerialNum) (e : PendingRemoveEntry)
    (hl : pendingLookup h.pendingRemove g = some e)
    (hgt : e.removeSerialNum < s) (hps : serialLt e.putSerialNum s = true) :
    notifyRemoveSerial h g s =
      some ({ h with pendingRemove := pendingUpdate h.pendingRemove g ⟨s, e.putSerialNum, e.refCount + 1⟩ },
            if serialGtRemove e.putSerialNum e.removeSerialNum then removeFanout h.listeners g
            else []) := by
  simp [notifyRemoveSerial, hl, hgt, hps]

theorem doneSerial_fatal_missing (h : GidToLidChangeHandler) (g : GlobalId)
    (s : SerialNum) (hl : pendingLookup h.pendingRemove g = none) :
    notifyRemoveDoneSerial h g s = none := by
  simp [notifyRemoveDoneSerial, hl]

theorem doneSerial_fatal_lt (h : GidToLidChangeHandler) (g : GlobalId)
    (s : SerialNum) (e : PendingRemoveEntry)
    (hl : pendingLookup h.pendingRemove g = some e)
    (hlt : e.removeSerialNum < s) :
    notifyRemoveDoneSerial h g s = none := by
  simp [notifyRemoveDoneSerial, hl, hlt]

theorem doneSerial_erase (h : GidToLidChangeHandler) (g : GlobalId)
    (s : SerialNum) (e : PendingRemoveEntry)
    (hl : pendingLookup h.pendingRemove g = some e)
    (hle : s ≤ e.removeSerialNum) (hrc : e.refCount = 1) :
    notifyRemoveDoneSerial h g s =
      some ({ h with pendingRemove := pendingErase h.pendingRemove g }, []) := by
  have h1 : ¬ e.removeSerialNum < s := Nat.not_lt.mpr hle
  simp [notifyRemoveDoneSerial, hl, h1, hrc]

theorem doneSerial_decrement (h : GidToLidChangeHandler) (g : GlobalId)
    (s : SerialNum) (e : PendingRemoveEntry)
    (hl : pendingLookup h.pendingRemove g = some e)
    (hle : s ≤ e.removeSerialNum) (hrc : e.refCount ≠ 1) :
    notifyRemoveDoneSerial h g s =
      some ({ h with pendingRemove := pendingUpdate h.pendingRemove g { e with refCount := e.refCount - 1 } },
            []) := by
  have h1 : ¬ e.removeSerialNum < s := Nat.not_lt.mpr hle
  simp [notifyRemoveDoneSerial, hl, h1, hrc]

/-- A state predicate preserved by every single call is preserved by runs. -/
theorem run_preserves (Q : GidToLidChangeHandler → Prop)
    (hstep : ∀ h op h1 b, Q h → step h op = some (h1, b) → Q h1)
    (ops : List Op) :
    ∀ h h' bs, Q h → run h ops = some (h', bs) → Q h' := by
  induction ops with
  | nil =>
    intro h h' bs hq hr
    rw [run] at hr
    cases hr
    exact hq
  | cons op ops ih =>
    intro h h' bs hq hr
    rw [run] at hr
    cases hstep' : step h op with
    | none =>
      simp only [hstep'] at hr
      cases hr
    | some p =>
      obtain ⟨h1, b⟩ := p
      simp only [hstep'] at hr
      cases hrun : run h1 ops with
      | none =>
        simp only [hrun] at hr
        cases hr
      | some q =>
        obtain ⟨h2, bs'⟩ := q
        simp only [hrun] at hr
        cases hr
        exact ih h1 _ _ (hstep h op h1 b hq hstep') hrun

/-- One call preserves the disequality of recorded serials in every entry. -/
theorem step_serialsNe (h : GidToLidChangeHandler) (op : Op)
    (h1 : GidToLidChangeHandler) (b : List Notification)
    (hq : serialsNeInv h) (hs : step h op = some (h1, b)) :
    serialsNeInv h1 := by
  cases op with
  | putDone g0 l s =>
    simp only [step] at hs
    cases hl : pendingLookup h.pendingRemove g0 with
    | none =>
      rw [putDoneSerial_no_entry h g0 l s hl] at hs
      cases hs
      exact hq
    | some entry =>
      by_cases heq : entry.removeSerialNum = s
      · rw [putDoneSerial_fatal_eq h g0 l s entry hl heq] at hs
        cases hs
      by_cases hlt : s < entry.removeSerialNum
      · rw [putDoneSerial_suppressed h g0 l s entry hl hlt] at hs
        cases hs
        exact hq
      have hgt : entry.removeSerialNum < s :=
        Nat.lt_of_le_of_ne (Nat.le_of_not_lt hlt) heq
      cases hps : serialLt entry.putSerialNum s with
      | false =>
        rw [putDoneSerial_fatal_stale h g0 l s entry hl hgt hps] at hs
        cases hs
      | true =>
        rw [putDoneSerial_update h g0 l s entry hl hgt hps] at hs
        cases hs
        intro g e hg
        by_cases hgg : g = g0
        · subst hgg
          have hup := pendingLookup_update_self h.pendingRemove g entry
            { entry with putSerialNum := some s } hl
          simp only at hg
          rw [hup] at hg
          cases hg
          intro hcon
          exact (Nat.ne_of_lt hgt).symm (Option.some.inj hcon)
        · have hne : g0 ≠ g := fun hc => hgg hc.symm
          simp only at hg
          rw [pendingLookup_update_ne h.pendingRemove g g0 _ hne] at hg
          exact hq g e hg
  | remove g0 s =>
    simp only [step] at hs
    cases hl : pendingLookup h.pendingRemove g0 with
    | none =>
      rw [removeSerial_no_entry h g0 s hl] at hs
      cases hs
      intro g e hg
      by_cases hgg : g = g0
      · subst hgg
        simp only [pendingLookup, if_pos rfl] at hg
        cases hg
        simp
      · have hne : ¬ g0 = g := fun hc => hgg hc.symm
        simp only [pendingLookup, if_neg hne] at hg
        exact hq g e hg
    | some entry =>
      by_cases hok : entry.removeSerialNum < s ∧ serialLt entry.putSerialNum s = true
      · rw [removeSerial_update h g0 s entry hl hok.1 hok.2] at hs
        cases hs
        intro g e hg
        by_cases hgg : g = g0
        · subst hgg
          have hup := pendingLookup_update_self h.pendingRemove g entry
            ⟨s, entry.putSerialNum, entry.refCount + 1⟩ hl
          simp only at hg
          rw [hup] at hg
          cases hg
          intro hcon
          have hps := hok.2
          cases hpv : entry.putSerialNum with
          | none => rw [hpv] at hcon; cases hcon
          | some p =>
            rw [hpv] at hcon
            have : p = s := Option.some.inj hcon
            rw [hpv] at hps
            simp only [serialLt, decide_eq_true_eq] at hps
            exact absurd this (Nat.ne_of_lt hps)
        · have hne : g0 ≠ g := fun hc => hgg hc.symm
          simp only at hg
          rw [pendingLookup_update_ne h.pendingRemove g g0 _ hne] at hg
          exact hq g e hg
      · rw [removeSerial_fatal h g0 s entry hl hok] at hs
        cases hs
  | removeDone g0 s =>
    simp only [step] at hs
    cases hl : pendingLookup h.pendingRemove g0 with
    | none =>
      rw [doneSerial_fatal_missing h g0 s hl] at hs
      cases hs
    | some entry =>
      by_cases hlt : entry.removeSerialNum < s
      · rw [doneSerial_fatal_lt h g0 s entry hl hlt] at hs
        cases hs
      have hle : s ≤ entry.removeSerialNum := Nat.le_of_not_lt hlt
      by_cases hrc : entry.refCount = 1
      · rw [doneSerial_erase h g0 s entry hl hle hrc] at hs
        cases hs
        intro g e hg
        by_cases hgg : g = g0
        · subst hgg
          simp only at hg
          rw [pendingLookup_erase_self] at hg
          cases hg
        · have hne : g0 ≠ g := fun hc => hgg hc.symm
          simp only at hg
          rw [pendingLookup_erase_ne h.pendingRemove g g0 hne] at hg
          exact hq g e hg
      · rw [doneSerial_decrement h g0 s entry hl hle hrc] at hs
        cases hs
        intro g e hg
        by_cases hgg : g = g0
        · subst hgg
          have hup := pendingLookup_update_self h.pendingRemove g entry
            { entry with refCount := entry.refCount - 1 } hl
          simp only at hg
          rw [hup] at hg
          cases hg
          exact hq g entry hl
        · have hne : g0 ≠ g := fun hc => hgg hc.symm
          simp only at hg
          rw [pendingLookup_update_ne h.pendingRemove g g0 _ hne] at hg
          exact hq g e hg
  | addL l =>
    simp only [step, addListener] at hs
    split at hs
    · split at hs <;> (cases hs; exact hq)
    · split at hs
      · cases hs
        exact hq
      · cases hs
  | removeL d keep =>
    simp only [step, removeListeners] at hs
    split at hs
    · cases hs
      exact hq
    · split at hs
      · cases hs
        exact hq
      · cases hs
  | closeOp =>
    simp only [step, closeHandler] at hs
    cases hs
    exact hq

/-- C5: in every state reachable by a non-fatal sequence of operations
from a fresh handler, no pending entry carries equal putSerialNum and
removeSerialNum, and every single call preserves this invariant. -/
theorem reachable_serials_ne (ops : List Op) (h' : GidToLidChangeHandler)
    (bs : List (List Notification))
    (hrun : run initialHandler ops = some (h', bs)) :
    (∀ g e, pendingLookup h'.pendingRemove g = some e →
      e.putSerialNum ≠ some e.removeSerialNum) ∧
    (∀ h op h1 b, serialsNeInv h → step h op = some (h1, b) → serialsNeInv h1) := by
  refine ⟨?_, fun h op h1 b hq hs => step_serialsNe h op h1 b hq hs⟩
  have hinit : serialsNeInv initialHandler := by
    intro g e hg
    simp [initialHandler, pendingLookup] at hg
  exact run_preserves serialsNeInv
    (fun h op h1 b hq hs => step_serialsNe h op h1 b hq hs) ops
    initialHandler h' bs hinit hrun

/-- Witness for reachable_serials_ne after a single notifyRemove. -/
theorem reachable_serials_ne_witness :
    (∀ g e, pendingLookup
        ({ listeners := [], closed := false, pendingRemove := [(0, ⟨5, none, 1⟩)] } :
          GidToLidChangeHandler).pendingRemove g = some e →
      e.putSerialNum ≠ some e.removeSerialNum) ∧
    (∀ h op h1 b, serialsNeInv h → step h op = some (h1, b) → serialsNeInv h1) :=
  reachable_serials_ne [Op.remove 0 5]
    { listeners := [], closed := false, pendingRemove := [(0, ⟨5, none, 1⟩)] }
    [[]] (by rfl)

/-- Count bookkeeping for a single call: a notifyRemove for g raises the
remove count, a notifyRemoveDone for g raises the done count, and the
entry for g keeps refCount equal to their difference. -/
theorem step_refCount (g : GlobalId) (h : GidToLidChangeHandler) (op : Op)
    (h1 : GidToLidChangeHandler) (b : List Notification) (r d : Nat)
    (hq : refCountInv g h r d) (hs : step h op = some (h1, b)) :
    refCountInv g h1 (r + removeCount g [op]) (d + doneCount g [op]) := by
  cases op with
  | putDone g0 l s =>
    simp only [removeCount, doneCount, Nat.add_zero]
    simp only [step] at hs
    cases hl : pendingLookup h.pendingRemove g0 with
    | none =>
      rw [putDoneSerial_no_entry h g0 l s hl] at hs
      cases hs
      exact hq
    | some entry =>
      by_cases heq : entry.removeSerialNum = s
      · rw [putDoneSerial_fatal_eq h g0 l s entry hl heq] at hs
        cases hs
      by_cases hlt : s < entry.removeSerialNum
      · rw [putDoneSerial_suppressed h g0 l s entry hl hlt] at hs
        cases hs
        exact hq
      have hgt : entry.removeSerialNum < s :=
        Nat.lt_of_le_of_ne (Nat.le_of_not_lt hlt) heq
      cases hps : serialLt entry.putSerialNum s with
      | false =>
        rw [putDoneSerial_fatal_stale h g0 l s entry hl hgt hps] at hs
        cases hs
      | true =>
        rw [putDoneSerial_update h g0 l s entry hl hgt hps] at hs
        cases hs
        unfold refCountInv at hq ⊢
        by_cases hgg : g0 = g
        · subst hgg
          have hup := pendingLookup_update_self h.pendingRemove g0 entry
            { entry with putSerialNum := some s } hl
          simp only [hup]
          simp only [hl] at hq
          exact hq
        · simp only [pendingLookup_update_ne h.pendingRemove g g0 _ hgg]
          exact hq
  | remove g0 s =>
    simp only [removeCount, doneCount, Nat.add_zero]
    simp only [step] at hs
    cases hl : pendingLookup h.pendingRemove g0 with
    | none =>
      rw [removeSerial_no_entry h g0 s hl] at hs
      cases hs
      unfold refCountInv at hq ⊢
      by_cases hgg : g0 = g
      · subst hgg
        simp only [pendingLookup, if_pos rfl]
        simp only [hl] at hq
        simp [hq]
        omega
      · simp only [pendingLookup, if_neg hgg, hgg]
        exact hq
    | some entry =>
      by_cases hok : entry.removeSerialNum < s ∧ serialLt entry.putSerialNum s = true
      · rw [removeSerial_update h g0 s entry hl hok.1 hok.2] at hs
        cases hs
        unfold refCountInv at hq ⊢
        by_cases hgg : g0 = g
        · subst hgg
          have hup := pendingLookup_update_self h.pendingRemove g0 entry
            ⟨s, entry.putSerialNum, entry.refCount + 1⟩ hl
          simp only [hup]
          simp only [hl] at hq
          simp only [if_true]
          obtain ⟨h1, h2⟩ := hq
          omega
        · simp only [pendingLookup_update_ne h.pendingRemove g g0 _ hgg, hgg]
          exact hq
      · rw [removeSerial_fatal h g0 s entry hl hok] at hs
        cases hs
  | removeDone g0 s =>
    simp only [removeCount, doneCount, Nat.add_zero]
    simp only [step] at hs
    cases hl : pendingLookup h.pendingRemove g0 with
    | none =>
      rw [doneSerial_fatal_missing h g0 s hl] at hs
      cases hs
    | some entry =>
      by_cases hlt : entry.removeSerialNum < s
      · rw [doneSerial_fatal_lt h g0 s entry hl hlt] at hs
        cases hs
      have hle : s ≤ entry.removeSerialNum := Nat.le_of_not_lt hlt
      by_cases hrc : entry.refCount = 1
      · rw [doneSerial_erase h g0 s entry hl hle hrc] at hs
        cases hs
        unfold refCountInv at hq ⊢
        by_cases hgg : g0 = g
        · subst hgg
          simp only [pendingLookup_erase_self]
          simp only [hl] at hq
          simp only [if_true]
          omega
        · simp only [pendingLookup_erase_ne h.pendingRemove g g0 hgg, hgg]
          exact hq
      · rw [doneSerial_decrement h g0 s entry hl hle hrc] at hs
        cases hs
        unfold refCountInv at hq ⊢
        by_cases hgg : g0 = g
        · subst hgg
          have hup := pendingLookup_update_self h.pendingRemove g0 entry
            { entry with refCount := entry.refCount - 1 } hl
          simp only [hup]
          simp only [hl] at hq
          simp only [if_true]
          obtain ⟨h1, h2⟩ := hq
          constructor
          · omega
          · omega
        · simp only [pendingLookup_update_ne h.pendingRemove g g0 _ hgg, hgg]
          exact hq
  | addL l =>
    simp only [removeCount, doneCount, Nat.add_zero]
    simp only [step, addListener] at hs
    split at hs
    · split at hs <;> (cases hs; exact hq)
    · split at hs
      · cases hs
        exact hq
      · cases hs
  | removeL dn keep =>
    simp only [removeCount, doneCount, Nat.add_zero]
    simp only [step, removeListeners] at hs
    split at hs
    · cases hs
      exact hq
    · split at hs
      · cases hs
        exact hq
      · cases hs
  | closeOp =>
    simp only [removeCount, doneCount, Nat.add_zero]
    simp only [step, closeHandler] at hs
    cases hs
    exact hq

theorem removeCount_cons (g : GlobalId) (op : Op) (ops : List Op) :
    removeCount g (op :: ops) = removeCount g [op] + removeCount g ops := by
  cases op <;> simp [removeCount]

theorem doneCount_cons (g : GlobalId) (op : Op) (ops : List Op) :
    doneCount g (op :: ops) = doneCount g [op] + doneCount g ops := by
  cases op <;> simp [doneCount]

/-- The refCount relation is maintained along any non-fatal run. -/
theorem run_refCount (g : GlobalId) (ops : List Op) :
    ∀ h h' bs r d, refCountInv g h r d → run h ops = some (h', bs) →
      refCountInv g h' (r + removeCount g ops) (d + doneCount g ops) := by
  induction ops with
  | nil =>
    intro h h' bs r d hq hr
    rw [run] at hr
    cases hr
    simpa [removeCount, doneCount] using hq
  | cons op ops ih =>
    intro h h' bs r d hq hr
    rw [run] at hr
    cases hstep' : step h op with
    | none =>
      simp only [hstep'] at hr
      cases hr
    | some p =>
      obtain ⟨h1, b⟩ := p
      simp only [hstep'] at hr
      cases hrun : run h1 ops with
      | none =>
        simp only [hrun] at hr
        cases hr
      | some q =>
        obtain ⟨h2, bs'⟩ := q
        simp only [hrun] at hr
        cases hr
        have h1q := step_refCount g h op h1 b r d hq hstep'
        have h2q := ih h1 _ _ _ _ h1q hrun
        rw [removeCount_cons g op ops, doneCount_cons g op ops,
          ← Nat.add_assoc, ← Nat.add_assoc]
        exact h2q

/-- C6: after any non-fatal run from a fresh handler, an entry for g
exists exactly when more removes than removeDones were executed for g,
and its refCount is that difference (hence at least 1). -/
theorem pending_entry_iff_outstanding (g : GlobalId) (ops : List Op)
    (h' : GidToLidChangeHandler) (bs : List (List Notification))
    (hrun : run initialHandler ops = some (h', bs)) :
    ((doneCount g ops < removeCount g ops) ↔
      ∃ e, pendingLookup h'.pendingRemove g = some e) ∧
    (∀ e, pendingLookup h'.pendingRemove g = some e →
      e.refCount = removeCount g ops - doneCount g ops ∧ 1 ≤ e.refCount) := by
  have hinit : refCountInv g initialHandler 0 0 := by
    simp [refCountInv, initialHandler, pendingLookup]
  have hq := run_refCount g ops initialHandler h' bs 0 0 hinit hrun
  simp only [Nat.zero_add] at hq
  unfold refCountInv at hq
  cases hl : pendingLookup h'.pendingRemove g with
  | none =>
    rw [hl] at hq
    have hq' : removeCount g ops = doneCount g ops := hq
    refine ⟨⟨fun hlt => absurd hq' (by omega), ?_⟩, ?_⟩
    · rintro ⟨e, he⟩
      cases he
    · intro e he
      cases he
  | some e =>
    rw [hl] at hq
    have hq' : e.refCount + doneCount g ops = removeCount g ops ∧ 1 ≤ e.refCount := hq
    obtain ⟨rs, ps, rc⟩ := e
    obtain ⟨h1, h2⟩ := hq'
    refine ⟨⟨fun _ => ⟨_, rfl⟩, fun _ => by omega⟩, ?_⟩
    intro e' he'
    cases he'
    exact ⟨by omega, by omega⟩

/-- Witness for pending_entry_iff_outstanding: two removes and one
removeDone on gid 0 leave an entry with refCount 1. -/
theorem pending_entry_iff_outstanding_witness :
    ((doneCount 0 [Op.remove 0 5, Op.remove 0 7, Op.removeDone 0 5] <
       removeCount 0 [Op.remove 0 5, Op.remove 0 7, Op.removeDone 0 5]) ↔
      ∃ e, pendingLookup [(0, (⟨7, none, 1⟩ : PendingRemoveEntry))] 0 = some e) ∧
    (∀ e, pendingLookup [(0, (⟨7, none, 1⟩ : PendingRemoveEntry))] 0 = some e →
      e.refCount = removeCount 0 [Op.remove 0 5, Op.remove 0 7, Op.removeDone 0 5] -
          doneCount 0 [Op.remove 0 5, Op.remove 0 7, Op.removeDone 0 5] ∧
        1 ≤ e.refCount) :=
  pending_entry_iff_outstanding 0 [Op.remove 0 5, Op.remove 0 7, Op.removeDone 0 5]
    { listeners := [], closed := false, pendingRemove := [(0, ⟨7, none, 1⟩)] }
    [[], [], []] (by rfl)

/-! ### Support for the delivery-order theorem -/

theorem run_cons_inv (h : GidToLidChangeHandler) (op : Op) (ops : List Op)
    (h' : GidToLidChangeHandler) (bs : List (List Notification))
    (hr : run h (op :: ops) = some (h', bs)) :
    ∃ h1 b bs', step h op = some (h1, b) ∧ run h1 ops = some (h', bs') ∧
      bs = b :: bs' := by
  rw [run] at hr
  cases hstep : step h op with
  | none =>
    simp only [hstep] at hr
    cases hr
  | some p =>
    obtain ⟨h1, b⟩ := p
    simp only [hstep] at hr
    cases hrun : run h1 ops with
    | none =>
      simp only [hrun] at hr
      cases hr
    | some q =>
      obtain ⟨h2, bs'⟩ := q
      simp only [hrun] at hr
      cases hr
      exact ⟨h1, b, bs', rfl, hrun, rfl⟩

theorem deliveryInv_lookup (g : GlobalId) (h h1 : GidToLidChangeHandler)
    (P R D : List SerialNum) (B : Option SerialNum)
    (he : pendingLookup h1.pendingRemove g = pendingLookup h.pendingRemove g)
    (hq : deliveryInv g h P R D B) : deliveryInv g h1 P R D B := by
  unfold deliveryInv at hq ⊢
  rw [he]
  exact hq

theorem outstandingCount_cons (R D : List SerialNum) (s : SerialNum)
    (hsD : s ∉ D) :
    outstandingCount (s :: R) D = outstandingCount R D + 1 := by
  simp [outstandingCount, List.filter_cons, hsD]

theorem outstandingCount_all_done (R D : List SerialNum)
    (hAll : ∀ r ∈ R, r ∈ D) : outstandingCount R D = 0 := by
  rw [outstandingCount, List.length_eq_zero]
  rw [List.filter_eq_nil_iff]
  intro a ha
  simpa using hAll a ha

theorem outstandingCount_remove_one (R : List SerialNum) :
    ∀ D s, R.Nodup → s ∈ R → s ∉ D →
      outstandingCount R (s :: D) + 1 = outstandingCount R D := by
  induction R with
  | nil =>
    intro D s hnd hsR hsD
    cases hsR
  | cons r R ih =>
    intro D s hnd hsR hsD
    rw [List.nodup_cons] at hnd
    rcases List.mem_cons.mp hsR with heq | hsR'
    · subst heq
      have hfil : R.filter (fun x => decide (x ∉ s :: D)) =
          R.filter (fun x => decide (x ∉ D)) := by
        apply List.filter_congr
        intro x hx
        have hxs : x ≠ s := fun hc => hnd.1 (hc ▸ hx)
        simp [hxs]
      have e1 : (s :: R).filter (fun x => decide (x ∉ s :: D)) =
          R.filter (fun x => decide (x ∉ s :: D)) := by
        rw [List.filter_cons_of_neg]
        simp
      have e2 : (s :: R).filter (fun x => decide (x ∉ D)) =
          s :: R.filter (fun x => decide (x ∉ D)) := by
        rw [List.filter_cons_of_pos]
        simpa using hsD
      rw [outstandingCount, outstandingCount, e1, hfil, e2, List.length_cons]
    · have hrs : r ≠ s := fun hc => hnd.1 (hc ▸ hsR')
      have hrec := ih D s hnd.2 hsR' hsD
      by_cases hrD : r ∈ D
      · have e1 : (r :: R).filter (fun x => decide (x ∉ s :: D)) =
            R.filter (fun x => decide (x ∉ s :: D)) := by
          rw [List.filter_cons_of_neg]
          simp [hrD]
        have e2 : (r :: R).filter (fun x => decide (x ∉ D)) =
            R.filter (fun x => decide (x ∉ D)) := by
          rw [List.filter_cons_of_neg]
          simp [hrD]
        rw [outstandingCount, outstandingCount, e1, e2]
        exact hrec
      · have e1 : (r :: R).filter (fun x => decide (x ∉ s :: D)) =
            r :: R.filter (fun x => decide (x ∉ s :: D)) := by
          rw [List.filter_cons_of_pos]
          simp [hrD, hrs]
        have e2 : (r :: R).filter (fun x => decide (x ∉ D)) =
            r :: R.filter (fun x => decide (x ∉ D)) := by
          rw [List.filter_cons_of_pos]
          simp [hrD]
        rw [outstandingCount, outstandingCount, e1, e2, List.length_cons,
          List.length_cons]
        rw [outstandingCount, outstandingCount] at hrec
        omega

theorem outstanding_singleton (R D : List SerialNum) (s : SerialNum)
    (hsR : s ∈ R) (hsD : s ∉ D) (hone : outstandingCount R D = 1) :
    ∀ r ∈ R, r ∈ D ∨ r = s := by
  intro r hr
  by_cases hrD : r ∈ D
  · exact Or.inl hrD
  right
  have hrf : r ∈ R.filter (fun x => decide (x ∉ D)) :=
    List.mem_filter.mpr ⟨hr, by simpa using hrD⟩
  have hsf : s ∈ R.filter (fun x => decide (x ∉ D)) :=
    List.mem_filter.mpr ⟨hsR, by simpa using hsD⟩
  obtain ⟨a, ha⟩ := List.length_eq_one.mp hone
  rw [ha] at hrf hsf
  simp only [List.mem_singleton] at hrf hsf
  rw [hrf, hsf]

theorem outstanding_pos (R D : List SerialNum) (s : SerialNum)
    (hsR : s ∈ R) (hsD : s ∉ D) : 1 ≤ outstandingCount R D := by
  have hsf : s ∈ R.filter (fun x => decide (x ∉ D)) :=
    List.mem_filter.mpr ⟨hsR, by simpa using hsD⟩
  have hpos := List.length_pos.mpr (List.ne_nil_of_mem hsf)
  simpa [outstandingCount] using hpos

theorem emit_assemble (B : Option SerialNum) (s : SerialNum)
    (rest : List SerialNum) (hBs : optBelow B s)
    (hpw : List.Pairwise (fun a b => a < b) rest)
    (hbd : ∀ t ∈ rest, optBelow (some s) t) :
    (List.Pairwise (fun a b => a < b) (s :: rest) ∧
      ∀ t ∈ s :: rest, optBelow B t) ∧
    (List.Pairwise (fun a b => a < b) rest ∧ ∀ t ∈ rest, optBelow B t) := by
  refine ⟨⟨List.pairwise_cons.mpr ⟨fun t ht => hbd t ht s rfl, hpw⟩, ?_⟩,
    hpw, ?_⟩
  · intro t ht b0 hb0
    rcases List.mem_cons.mp ht with rfl | ht'
    · exact hBs b0 hb0
    · exact Nat.lt_trans (hBs b0 hb0) (hbd t ht' s rfl)
  · intro t ht b0 hb0
    exact Nat.lt_trans (hBs b0 hb0) (hbd t ht s rfl)

theorem emit_conclusion (B : Option SerialNum) (s : SerialNum)
    (rest : List SerialNum) (b : List Notification) (hBs : optBelow B s)
    (hpw : List.Pairwise (fun a b => a < b) rest)
    (hbd : ∀ t ∈ rest, optBelow (some s) t) :
    List.Pairwise (fun a b => a < b) (if b = [] then rest else s :: rest) ∧
    (∀ t ∈ (if b = [] then rest else s :: rest), optBelow B t) := by
  have ha := emit_assemble B s rest hBs hpw hbd
  by_cases hb : b = []
  · rw [if_pos hb]
    exact ha.2
  · rw [if_neg hb]
    exact ha.1

theorem putDone_lookup_other (h : GidToLidChangeHandler) (g0 : GlobalId)
    (l : Nat) (s : SerialNum) (h1 : GidToLidChangeHandler)
    (b : List Notification) (g : GlobalId) (hgg : g0 ≠ g)
    (hs : notifyPutDoneSerial h g0 l s = some (h1, b)) :
    pendingLookup h1.pendingRemove g = pendingLookup h.pendingRemove g := by
  cases hl : pendingLookup h.pendingRemove g0 with
  | none =>
    rw [putDoneSerial_no_entry h g0 l s hl] at hs
    cases hs
    rfl
  | some entry =>
    by_cases heq : entry.removeSerialNum = s
    · rw [putDoneSerial_fatal_eq h g0 l s entry hl heq] at hs
      cases hs
    by_cases hlt : s < entry.removeSerialNum
    · rw [putDoneSerial_suppressed h g0 l s entry hl hlt] at hs
      cases hs
      rfl
    have hgt : entry.removeSerialNum < s :=
      Nat.lt_of_le_of_ne (Nat.le_of_not_lt hlt) heq
    cases hps : serialLt entry.putSerialNum s with
    | false =>
      rw [putDoneSerial_fatal_stale h g0 l s entry hl hgt hps] at hs
      cases hs
    | true =>
      rw [putDoneSerial_update h g0 l s entry hl hgt hps] at hs
      cases hs
      exact pendingLookup_update_ne h.pendingRemove g g0 _ hgg

theorem remove_lookup_other (h : GidToLidChangeHandler) (g0 : GlobalId)
    (s : SerialNum) (h1 : GidToLidChangeHandler) (b : List Notification)
    (g : GlobalId) (hgg : g0 ≠ g)
    (hs : notifyRemoveSerial h g0 s = some (h1, b)) :
    pendingLookup h1.pendingRemove g = pendingLookup h.pendingRemove g := by
  cases hl : pendingLookup h.pendingRemove g0 with
  | none =>
    rw [removeSerial_no_entry h g0 s hl] at hs
    cases hs
    simp [pendingLookup, hgg]
  | some entry =>
    by_cases hok : entry.removeSerialNum < s ∧ serialLt entry.putSerialNum s = true
    · rw [removeSerial_update h g0 s entry hl hok.1 hok.2] at hs
      cases hs
      exact pendingLookup_update_ne h.pendingRemove g g0 _ hgg
    · rw [removeSerial_fatal h g0 s entry hl hok] at hs
      cases hs

theorem done_lookup_other (h : GidToLidChangeHandler) (g0 : GlobalId)
    (s : SerialNum) (h1 : GidToLidChangeHandler) (b : List Notification)
    (g : GlobalId) (hgg : g0 ≠ g)
    (hs : notifyRemoveDoneSerial h g0 s = some (h1, b)) :
    pendingLookup h1.pendingRemove g = pendingLookup h.pendingRemove g := by
  cases hl : pendingLookup h.pendingRemove g0 with
  | none =>
    rw [doneSerial_fatal_missing h g0 s hl] at hs
    cases hs
  | some entry =>
    by_cases hlt : entry.removeSerialNum < s
    · rw [doneSerial_fatal_lt h g0 s entry hl hlt] at hs
      cases hs
    have hle : s ≤ entry.removeSerialNum := Nat.le_of_not_lt hlt
    by_cases hrc : entry.refCount = 1
    · rw [doneSerial_erase h g0 s entry hl hle hrc] at hs
      cases hs
      exact pendingLookup_erase_ne h.pendingRemove g g0 hgg
    · rw [doneSerial_decrement h g0 s entry hl hle hrc] at hs
      cases hs
      exact pendingLookup_update_ne h.pendingRemove g g0 _ hgg

theorem listener_step_pending (h : GidToLidChangeHandler) (op : Op)
    (h1 : GidToLidChangeHandler) (b : List Notification)
    (hlis : op = Op.closeOp ∨ (∃ l, op = Op.addL l) ∨
      ∃ d keep, op = Op.removeL d keep)
    (hs : step h op = some (h1, b)) :
    h1.pendingRemove = h.pendingRemove := by
  rcases hlis with rfl | ⟨l, rfl⟩ | ⟨d, keep, rfl⟩
  · simp only [step, closeHandler] at hs
    cases hs
    rfl
  · simp only [step, addListener] at hs
    split at hs
    · split at hs <;> (cases hs; rfl)
    · split at hs
      · cases hs
        rfl
      · cases hs
  · simp only [step, removeListeners] at hs
    split at hs
    · cases hs
      rfl
    · split at hs
      · cases hs
        rfl
      · cases hs

theorem dser_putDone_eq (g0 : GlobalId) (l : Nat) (s : SerialNum)
    (ops : List Op) (b : List Notification) (bs : List (List Notification)) :
    deliveredSerials g0 (Op.putDone g0 l s :: ops) (b :: bs) =
      if b = [] then deliveredSerials g0 ops bs
      else s :: deliveredSerials g0 ops bs := by
  by_cases hb : b = [] <;> simp [deliveredSerials, hb]

theorem dser_remove_eq (g0 : GlobalId) (s : SerialNum) (ops : List Op)
    (b : List Notification) (bs : List (List Notification)) :
    deliveredSerials g0 (Op.remove g0 s :: ops) (b :: bs) =
      if b = [] then deliveredSerials g0 ops bs
      else s :: deliveredSerials g0 ops bs := by
  by_cases hb : b = [] <;> simp [deliveredSerials, hb]

theorem dser_putDone_ne (g g0 : GlobalId) (l : Nat) (s : SerialNum)
    (ops : List Op) (b : List Notification) (bs : List (List Notification))
    (hgg : g0 ≠ g) :
    deliveredSerials g (Op.putDone g0 l s :: ops) (b :: bs) =
      deliveredSerials g ops bs := by
  simp [deliveredSerials, hgg]

theorem dser_remove_ne (g g0 : GlobalId) (s : SerialNum) (ops : List Op)
    (b : List Notification) (bs : List (List Notification)) (hgg : g0 ≠ g) :
    deliveredSerials g (Op.remove g0 s :: ops) (b :: bs) =
      deliveredSerials g ops bs := by
  simp [deliveredSerials, hgg]

theorem dser_done (g g0 : GlobalId) (s : SerialNum) (ops : List Op)
    (b : List Notification) (bs : List (List Notification)) :
    deliveredSerials g (Op.removeDone g0 s :: ops) (b :: bs) =
      deliveredSerials g ops bs := rfl

theorem dser_addL (g : GlobalId) (l : Listener) (ops : List Op)
    (b : List Notification) (bs : List (List Notification)) :
    deliveredSerials g (Op.addL l :: ops) (b :: bs) =
      deliveredSerials g ops bs := rfl

theorem dser_removeL (g : GlobalId) (d : String) (keep : List String)
    (ops : List Op) (b : List Notification) (bs : List (List Notification)) :
    deliveredSerials g (Op.removeL d keep :: ops) (b :: bs) =
      deliveredSerials g ops bs := rfl

theorem dser_close (g : GlobalId) (ops : List Op) (b : List Notification)
    (bs : List (List Notification)) :
    deliveredSerials g (Op.closeOp :: ops) (b :: bs) =
      deliveredSerials g ops bs := rfl

/-- Core delivery-order induction: under the strengthened caller contract
and the delivery invariant, a run delivers the serials for g in strictly
increasing order, all above the bound B. -/
theorem delivery_order_main (g : GlobalId) (ops : List Op) :
    ∀ h P R D B, orderedContract g P R D ops → deliveryInv g h P R D B →
      ∀ h' bs, run h ops = some (h', bs) →
        List.Pairwise (fun a b => a < b) (deliveredSerials g ops bs) ∧
        (∀ t ∈ deliveredSerials g ops bs, optBelow B t) := by
  induction ops with
  | nil =>
    intro h P R D B hc hq h' bs hr
    rw [run] at hr
    cases hr
    constructor
    · simp [deliveredSerials]
    · intro t ht
      simp [deliveredSerials] at ht
  | cons op ops ih =>
    intro h P R D B hc hq h' bs0 hr
    obtain ⟨h1, b, bs', hstep, hrun, rfl⟩ := run_cons_inv h op ops h' bs0 hr
    have hqU := hq
    unfold deliveryInv at hqU
    obtain ⟨hnd, hDR, hBp, hm⟩ := hqU
    cases op with
    | putDone g0 l s =>
      simp only [step] at hstep
      by_cases hgg : g0 = g
      · subst hgg
        simp only [orderedContract] at hc
        rw [if_pos trivial] at hc
        obtain ⟨⟨hP, hR, hD⟩, hc'⟩ := hc
        cases hl : pendingLookup h.pendingRemove g0 with
        | none =>
          rw [putDoneSerial_no_entry h g0 l s hl] at hstep
          cases hstep
          rw [hl] at hm
          have hm' : ∀ r ∈ R, r ∈ D := hm
          have hBs : optBelow B s := by
            intro b0 hb0
            rcases hBp b0 hb0 with hb0P | hb0R
            · exact hP b0 hb0P
            · exact hD b0 (hm' b0 hb0R)
          have hq1 : deliveryInv g0 h (s :: P) R D (some s) := by
            unfold deliveryInv
            refine ⟨hnd, hDR, ?_, ?_⟩
            · intro b0 hb0
              cases hb0
              exact Or.inl (List.mem_cons_self s P)
            · rw [hl]
              exact hm'
          obtain ⟨hpw, hbd⟩ := ih h (s :: P) R D (some s) hc' hq1 h' bs' hrun
          rw [dser_putDone_eq g0 l s ops _ bs']
          exact emit_conclusion B s _ _ hBs hpw hbd
        | some entry =>
          obtain ⟨rs, ps, rc⟩ := entry
          rw [hl] at hm
          have hme : rs ∈ R ∧ (∀ r ∈ R, r ≤ rs) ∧
              (∀ p, ps = some p → p ∈ P) ∧
              (∀ b0, B = some b0 → b0 ≤ entryMax ⟨rs, ps, rc⟩) ∧
              rc = outstandingCount R D := hm
          obtain ⟨hrsR, hrLe, hpsP, hBm, hrcO⟩ := hme
          by_cases heq : rs = s
          · rw [putDoneSerial_fatal_eq h g0 l s ⟨rs, ps, rc⟩ hl heq] at hstep
            cases hstep
          by_cases hlt : s < rs
          · rw [putDoneSerial_suppressed h g0 l s ⟨rs, ps, rc⟩ hl hlt] at hstep
            cases hstep
            have hq1 : deliveryInv g0 h (s :: P) R D B := by
              unfold deliveryInv
              refine ⟨hnd, hDR, ?_, ?_⟩
              · intro b0 hb0
                rcases hBp b0 hb0 with h2 | h2
                · exact Or.inl (List.mem_cons_of_mem s h2)
                · exact Or.inr h2
              · rw [hl]
                exact ⟨hrsR, hrLe,
                  fun p hp => List.mem_cons_of_mem s (hpsP p hp), hBm, hrcO⟩
            obtain ⟨hpw, hbd⟩ := ih h (s :: P) R D B hc' hq1 h' bs' hrun
            rw [dser_putDone_eq g0 l s ops _ bs']
            rw [if_pos rfl]
            exact ⟨hpw, hbd⟩
          · have hgt : rs < s := Nat.lt_of_le_of_ne (Nat.le_of_not_lt hlt) heq
            cases hps : serialLt ps s with
            | false =>
              rw [putDoneSerial_fatal_stale h g0 l s ⟨rs, ps, rc⟩ hl hgt hps] at hstep
              cases hstep
            | true =>
              rw [putDoneSerial_update h g0 l s ⟨rs, ps, rc⟩ hl hgt hps] at hstep
              cases hstep
              have hmax : entryMax ⟨rs, ps, rc⟩ < s := by
                cases ps with
                | none => simpa [entryMax] using hgt
                | some p =>
                  have hp : p < s := by simpa [serialLt] using hps
                  simp only [entryMax]
                  exact Nat.max_lt.mpr ⟨hgt, hp⟩
              have hBs : optBelow B s := by
                intro b0 hb0
                exact Nat.lt_of_le_of_lt (hBm b0 hb0) hmax
              have hq1 : deliveryInv g0
                  { h with pendingRemove :=
                      pendingUpdate h.pendingRemove g0 ⟨rs, some s, rc⟩ }
                  (s :: P) R D (some s) := by
                unfold deliveryInv
                refine ⟨hnd, hDR, ?_, ?_⟩
                · intro b0 hb0
                  cases hb0
                  exact Or.inl (List.mem_cons_self s P)
                · simp only
                  rw [pendingLookup_update_self h.pendingRemove g0
                    ⟨rs, ps, rc⟩ ⟨rs, some s, rc⟩ hl]
                  refine ⟨hrsR, hrLe, ?_, ?_, hrcO⟩
                  · intro p hp
                    cases hp
                    exact List.mem_cons_self s P
                  · intro b0 hb0
                    cases hb0
                    simp only [entryMax]
                    exact Nat.le_max_right rs s
              obtain ⟨hpw, hbd⟩ := ih _ (s :: P) R D (some s) hc' hq1 h' bs' hrun
              rw [dser_putDone_eq g0 l s ops _ bs']
              exact emit_conclusion B s _ _ hBs hpw hbd
      · simp only [orderedContract] at hc
        rw [if_neg hgg] at hc
        have hlook := putDone_lookup_other h g0 l s h1 b g hgg hstep
        have hq1 := deliveryInv_lookup g h h1 P R D B hlook hq
        obtain ⟨hpw, hbd⟩ := ih h1 P R D B hc hq1 h' bs' hrun
        rw [dser_putDone_ne g g0 l s ops b bs' hgg]
        exact ⟨hpw, hbd⟩
    | remove g0 s =>
      simp only [step] at hstep
      by_cases hgg : g0 = g
      · subst hgg
        simp only [orderedContract] at hc
        rw [if_pos trivial] at hc
        obtain ⟨⟨hR, hP⟩, hc'⟩ := hc
        have hsR : s ∉ R := fun hc0 => Nat.lt_irrefl s (hR s hc0)
        have hsD : s ∉ D := fun hc0 => hsR (hDR s hc0)
        have hBs : optBelow B s := by
          intro b0 hb0
          rcases hBp b0 hb0 with h2 | h2
          · exact hP b0 h2
          · exact hR b0 h2
        cases hl : pendingLookup h.pendingRemove g0 with
        | none =>
          rw [removeSerial_no_entry h g0 s hl] at hstep
          cases hstep
          rw [hl] at hm
          have hm' : ∀ r ∈ R, r ∈ D := hm
          have hq1 : deliveryInv g0
              { h with pendingRemove := (g0, ⟨s, none, 1⟩) :: h.pendingRemove }
              P (s :: R) D (some s) := by
            unfold deliveryInv
            refine ⟨List.nodup_cons.mpr ⟨hsR, hnd⟩, ?_, ?_, ?_⟩
            · intro d hd
              exact List.mem_cons_of_mem s (hDR d hd)
            · intro b0 hb0
              cases hb0
              exact Or.inr (List.mem_cons_self s R)
            · simp only [pendingLookup]
              rw [if_pos trivial]
              refine ⟨List.mem_cons_self s R, ?_, ?_, ?_, ?_⟩
              · intro r hr
                rcases List.mem_cons.mp hr with hr' | hr'
                · exact Nat.le_of_eq hr'
                · exact Nat.le_of_lt (hR r hr')
              · intro p hp
                cases hp
              · intro b0 hb0
                cases hb0
                simp [entryMax]
              · rw [outstandingCount_cons R D s hsD,
                  outstandingCount_all_done R D hm']
          obtain ⟨hpw, hbd⟩ := ih _ P (s :: R) D (some s) hc' hq1 h' bs' hrun
          rw [dser_remove_eq g0 s ops _ bs']
          exact emit_conclusion B s _ _ hBs hpw hbd
        | some entry =>
          obtain ⟨rs, ps, rc⟩ := entry
          rw [hl] at hm
          have hme : rs ∈ R ∧ (∀ r ∈ R, r ≤ rs) ∧
              (∀ p, ps = some p → p ∈ P) ∧
              (∀ b0, B = some b0 → b0 ≤ entryMax ⟨rs, ps, rc⟩) ∧
              rc = outstandingCount R D := hm
          obtain ⟨hrsR, hrLe, hpsP, hBm, hrcO⟩ := hme
          by_cases hok : rs < s ∧ serialLt ps s = true
          · rw [removeSerial_update h g0 s ⟨rs, ps, rc⟩ hl hok.1 hok.2] at hstep
            cases hstep
            have hq1 : deliveryInv g0
                { h with pendingRemove :=
                    pendingUpdate h.pendingRemove g0 ⟨s, ps, rc + 1⟩ }
                P (s :: R) D (some s) := by
              unfold deliveryInv
              refine ⟨List.nodup_cons.mpr ⟨hsR, hnd⟩, ?_, ?_, ?_⟩
              · intro d hd
                exact List.mem_cons_of_mem s (hDR d hd)
              · intro b0 hb0
                cases hb0
                exact Or.inr (List.mem_cons_self s R)
              · simp only
                rw [pendingLookup_update_self h.pendingRemove g0
                  ⟨rs, ps, rc⟩ ⟨s, ps, rc + 1⟩ hl]
                refine ⟨List.mem_cons_self s R, ?_, hpsP, ?_, ?_⟩
                · intro r hr
                  rcases List.mem_cons.mp hr with hr' | hr'
                  · exact Nat.le_of_eq hr'
                  · exact Nat.le_of_lt (hR r hr')
                · intro b0 hb0
                  cases hb0
                  cases ps with
                  | none => simp [entryMax]
                  | some p =>
                    simp only [entryMax]
                    exact Nat.le_max_left s p
                · rw [outstandingCount_cons R D s hsD, ← hrcO]
            obtain ⟨hpw, hbd⟩ := ih _ P (s :: R) D (some s) hc' hq1 h' bs' hrun
            rw [dser_remove_eq g0 s ops _ bs']
            exact emit_conclusion B s _ _ hBs hpw hbd
          · rw [removeSerial_fatal h g0 s ⟨rs, ps, rc⟩ hl hok] at hstep
            cases hstep
      · simp only [orderedContract] at hc
        rw [if_neg hgg] at hc
        have hlook := remove_lookup_other h g0 s h1 b g hgg hstep
        have hq1 := deliveryInv_lookup g h h1 P R D B hlook hq
        obtain ⟨hpw, hbd⟩ := ih h1 P R D B hc hq1 h' bs' hrun
        rw [dser_remove_ne g g0 s ops b bs' hgg]
        exact ⟨hpw, hbd⟩
    | removeDone g0 s =>
      simp only [step] at hstep
      by_cases hgg : g0 = g
      · subst hgg
        simp only [orderedContract] at hc
        rw [if_pos trivial] at hc
        obtain ⟨⟨hsR, hsD⟩, hc'⟩ := hc
        cases hl : pendingLookup h.pendingRemove g0 with
        | none =>
          rw [doneSerial_fatal_missing h g0 s hl] at hstep
          cases hstep
        | some entry =>
          obtain ⟨rs, ps, rc⟩ := entry
          rw [hl] at hm
          have hme : rs ∈ R ∧ (∀ r ∈ R, r ≤ rs) ∧
              (∀ p, ps = some p → p ∈ P) ∧
              (∀ b0, B = some b0 → b0 ≤ entryMax ⟨rs, ps, rc⟩) ∧
              rc = outstandingCount R D := hm
          obtain ⟨hrsR, hrLe, hpsP, hBm, hrcO⟩ := hme
          by_cases hlt : rs < s
          · rw [doneSerial_fatal_lt h g0 s ⟨rs, ps, rc⟩ hl hlt] at hstep
            cases hstep
          have hle : s ≤ rs := Nat.le_of_not_lt hlt
          by_cases hrc1 : rc = 1
          · rw [doneSerial_erase h g0 s ⟨rs, ps, rc⟩ hl hle hrc1] at hstep
            cases hstep
            have hone : outstandingCount R D = 1 := by
              rw [← hrcO]
              exact hrc1
            have hsing := outstanding_singleton R D s hsR hsD hone
            have hq1 : deliveryInv g0
                { h with pendingRemove := pendingErase h.pendingRemove g0 }
                P R (s :: D) B := by
              unfold deliveryInv
              refine ⟨hnd, ?_, hBp, ?_⟩
              · intro d hd
                rcases List.mem_cons.mp hd with rfl | hd'
                · exact hsR
                · exact hDR d hd'
              · simp only
                rw [pendingLookup_erase_self]
                intro r hr
                rcases hsing r hr with h2 | h2
                · exact List.mem_cons_of_mem s h2
                · exact h2 ▸ List.mem_cons_self s D
            obtain ⟨hpw, hbd⟩ := ih _ P R (s :: D) B hc' hq1 h' bs' hrun
            rw [dser_done g0 g0 s ops _ bs']
            exact ⟨hpw, hbd⟩
          · rw [doneSerial_decrement h g0 s ⟨rs, ps, rc⟩ hl hle hrc1] at hstep
            cases hstep
            have hrem := outstandingCount_remove_one R D s hnd hsR hsD
            have hq1 : deliveryInv g0
                { h with pendingRemove :=
                    pendingUpdate h.pendingRemove g0 ⟨rs, ps, rc - 1⟩ }
                P R (s :: D) B := by
              unfold deliveryInv
              refine ⟨hnd, ?_, hBp, ?_⟩
              · intro d hd
                rcases List.mem_cons.mp hd with rfl | hd'
                · exact hsR
                · exact hDR d hd'
              · simp only
                rw [pendingLookup_update_self h.pendingRemove g0
                  ⟨rs, ps, rc⟩ ⟨rs, ps, rc - 1⟩ hl]
                refine ⟨hrsR, hrLe, hpsP, hBm, ?_⟩
                show rc - 1 = outstandingCount R (s :: D)
                omega
            obtain ⟨hpw, hbd⟩ := ih _ P R (s :: D) B hc' hq1 h' bs' hrun
            rw [dser_done g0 g0 s ops _ bs']
            exact ⟨hpw, hbd⟩
      · simp only [orderedContract] at hc
        rw [if_neg hgg] at hc
        have hlook := done_lookup_other h g0 s h1 b g hgg hstep
        have hq1 := deliveryInv_lookup g h h1 P R D B hlook hq
        obtain ⟨hpw, hbd⟩ := ih h1 P R D B hc hq1 h' bs' hrun
        rw [dser_done g g0 s ops b bs']
        exact ⟨hpw, hbd⟩
    | addL l =>
      simp only [orderedContract] at hc
      have hpr := listener_step_pending h (Op.addL l) h1 b
        (Or.inr (Or.inl ⟨l, rfl⟩)) hstep
      have hq1 := deliveryInv_lookup g h h1 P R D B (by rw [hpr]) hq
      obtain ⟨hpw, hbd⟩ := ih h1 P R D B hc hq1 h' bs' hrun
      rw [dser_addL g l ops b bs']
      exact ⟨hpw, hbd⟩
    | removeL d keep =>
      simp only [orderedContract] at hc
      have hpr := listener_step_pending h (Op.removeL d keep) h1 b
        (Or.inr (Or.inr ⟨d, keep, rfl⟩)) hstep
      have hq1 := deliveryInv_lookup g h h1 P R D B (by rw [hpr]) hq
      obtain ⟨hpw, hbd⟩ := ih h1 P R D B hc hq1 h' bs' hrun
      rw [dser_removeL g d keep ops b bs']
      exact ⟨hpw, hbd⟩
    | closeOp =>
      simp only [orderedContract] at hc
      have hpr := listener_step_pending h Op.closeOp h1 b (Or.inl rfl) hstep
      have hq1 := deliveryInv_lookup g h h1 P R D B (by rw [hpr]) hq
      obtain ⟨hpw, hbd⟩ := ih h1 P R D B hc hq1 h' bs' hrun
      rw [dser_close g ops b bs']
      exact ⟨hpw, hbd⟩

/-- C4 (amended): for every operation sequence whose serials satisfy the
observable caller contract strengthened by the per-gid arrival-order
conditions of orderedContract (puts in serial order, removes in serial
order, no put arriving before a remove of larger serial is registered
after it, and no put arriving after the removeDone of a remove with a
larger serial), every non-fatal run from a fresh handler delivers the
notifications for g in strictly increasing serial order. -/
theorem delivery_order_spec (g : GlobalId) (ops : List Op)
    (hc : orderedContract g [] [] [] ops)
    (h' : GidToLidChangeHandler) (bs : List (List Notification))
    (hrun : run initialHandler ops = some (h', bs)) :
    List.Pairwise (fun a b => a < b) (deliveredSerials g ops bs) := by
  have hq : deliveryInv g initialHandler [] [] [] none := by
    unfold deliveryInv
    refine ⟨List.nodup_nil, ?_, ?_, ?_⟩
    · intro d hd
      cases hd
    · intro b0 hb0
      cases hb0
    · exact fun r hr => absurd hr (List.not_mem_nil r)
  exact (delivery_order_main g ops initialHandler [] [] [] none hc hq h' bs hrun).1

/-- Witness for delivery_order_spec: register a listener, then a remove at
serial 1, a put completion at serial 2 and the matching removeDone; the
delivered serials for gid 0 are 1 then 2, in order. -/
theorem delivery_order_spec_witness :
    List.Pairwise (fun a b => a < b)
      (deliveredSerials 0
        [Op.addL lsnrA, Op.remove 0 1, Op.putDone 0 7 2, Op.removeDone 0 1]
        [[(lsnrA, Event.registered)], [(lsnrA, Event.removed 0)],
         [(lsnrA, Event.putDone 0 7)], []]) :=
  delivery_order_spec 0
    [Op.addL lsnrA, Op.remove 0 1, Op.putDone 0 7 2, Op.removeDone 0 1]
    (by simp [orderedContract])
    { listeners := [lsnrA], closed := false, pendingRemove := [] }
    [[(lsnrA, Event.registered)], [(lsnrA, Event.removed 0)],
     [(lsnrA, Event.putDone 0 7)], []]
    (by rfl)

/-- C4 as stated is false: the sequence outOfOrderOps satisfies the
observable caller contract of the spec (distinct serials, put and remove
never sharing one, each removeDone matching exactly one earlier remove and
every remove eventually done), yet the handler delivers the remove at
serial 10 and then, after the pending entry is drained, the stale put
completion at serial 5 — out of serial order. -/
theorem delivery_order_cex :
    claimContract 0 [] [] [] outOfOrderOps ∧
    run initialHandler outOfOrderOps =
      some ({ listeners := [lsnrA], closed := false, pendingRemove := [] },
        [[(lsnrA, Event.registered)], [(lsnrA, Event.removed 0)], [],
         [(lsnrA, Event.putDone 0 7)]]) ∧
    deliveredSerials 0 outOfOrderOps
      [[(lsnrA, Event.registered)], [(lsnrA, Event.removed 0)], [],
       [(lsnrA, Event.putDone 0 7)]] = [10, 5] ∧
    ¬ List.Pairwise (fun a b => a < b) [10, 5] := by
  refine ⟨?_, by rfl, by rfl, ?_⟩
  · simp [claimContract, outOfOrderOps]
  · intro hp
    have h5 := (List.pairwise_cons.mp hp).1 5 (List.mem_singleton.mpr rfl)
    omega
